import Mathlib

/-!
Verification of the price-crawling and price-history subsystem of
`blueprint_api` (Django).  The Python models, admin actions and analysis
views are shallowly embedded as Lean functions:

* `PriceEntry` / `ProductVariation` mirror the fields of
  `PriceHistory` and `ProductVariation` in `models.py`; the price ledger
  `price_entries` is kept in insertion (append) order; timestamps are
  naturals; `DecimalField` / Python `float` arithmetic is modelled
  exactly by `ℚ`.
* Django query ordering (`Meta.ordering = ['-date_time']`,
  `.order_by('-date_time')`, `.order_by('date_time')`) and Python's
  `list.sort(key=..., reverse=True)` are modelled by the stable
  insertion sorts `sortDescBy` / `sortAscBy` below.  Note: the Django
  model orders by the single key `date_time` with no secondary key, so
  for entries sharing a timestamp the database order is not constrained
  by the code; the stable sort (which keeps insertion order among equal
  keys) is the deterministic refinement used here.
* The network fetch and the extractor (module `blueprint_api.crawlers`,
  not part of the eight embedded source files) are abstracted as an
  oracle `AttemptEnv` per variation: an attempt either raises, or
  completes returning an optional price, exactly the three ways the
  `try` body of `crawl_selected_prices` in `admin.py` can end.
-/

namespace Blueprint

/-- One row of `PriceHistory` (`models.py`): price, timestamp, optional note. -/
structure PriceEntry where
  price : ℚ
  date_time : ℕ
  notes : Option String
  deriving DecidableEq, Repr

/-- The fields of `ProductVariation` (`models.py`) the crawling and
price-history subsystem reads and writes.  `price_entries` is the
variation's ledger in insertion (append) order; `url` is `none` for SQL
`NULL` (the field is also blank-able, so the empty string is possible and
is falsy in Python). -/
structure ProductVariation where
  sku : String
  product_name : String
  name : String
  url : Option String
  is_crawling_enabled : Bool
  last_crawled_at : Option ℕ
  crawl_error_count : ℕ
  last_crawl_error : Option String
  price_entries : List PriceEntry
  deriving DecidableEq, Repr

/-- Python truthiness of an optional string: `None` and `""` are falsy. -/
def strTruthy : Option String → Bool
  | none => false
  | some s => !(s == "")

/-- Stable insert for descending order: `a` is placed after every element
with a strictly larger key and before every element with an equal or
smaller key. -/
def insertDescBy {α β : Type} [LinearOrder β] (key : α → β) (a : α) : List α → List α
  | [] => [a]
  | x :: xs => if key a < key x then x :: insertDescBy key a xs else a :: x :: xs

/-- Stable descending sort by a key: the model of Django's
`order_by('-date_time')` and Python's `sort(key=..., reverse=True)`
(both keep the original order among equal keys). -/
def sortDescBy {α β : Type} [LinearOrder β] (key : α → β) : List α → List α
  | [] => []
  | a :: l => insertDescBy key a (sortDescBy key l)

/-- Stable insert for ascending order. -/
def insertAscBy {α β : Type} [LinearOrder β] (key : α → β) (a : α) : List α → List α
  | [] => [a]
  | x :: xs => if key x < key a then x :: insertAscBy key a xs else a :: x :: xs

/-- Stable ascending sort by a key: the model of `order_by('date_time')`. -/
def sortAscBy {α β : Type} [LinearOrder β] (key : α → β) : List α → List α
  | [] => []
  | a :: l => insertAscBy key a (sortAscBy key l)

/-- `ProductVariation.price` (`models.py` lines 803-807): the price of the
first entry of the ledger ordered by `-date_time` (`Meta.ordering` of
`PriceHistory`), or `0` when the ledger is empty. -/
def price (v : ProductVariation) : ℚ :=
  match sortDescBy (fun e => e.date_time) v.price_entries with
  | [] => 0
  | e :: _ => e.price

/-- `ProductVariation.add_price` (`models.py` lines 809-819): append a new
`PriceHistory` row; `date_time` is the caller's clock value (the Python
default is `timezone.now()`). -/
def add_price (v : ProductVariation) (p : ℚ) (date_time : ℕ) (notes : Option String) :
    ProductVariation :=
  { v with price_entries := v.price_entries ++ [⟨p, date_time, notes⟩] }

/-- `ProductVariation.update_crawl_success` (`models.py` lines 821-826):
stamp `last_crawled_at`, zero the error counter, clear the last error.
The `price` argument is accepted and ignored, as in the source. -/
def update_crawl_success (v : ProductVariation) (now : ℕ) (_price : ℚ) : ProductVariation :=
  { v with last_crawled_at := some now, crawl_error_count := 0, last_crawl_error := none }

/-- `ProductVariation.update_crawl_error` (`models.py` lines 828-832):
increment the consecutive-error counter and store the message truncated
to 500 characters. -/
def update_crawl_error (v : ProductVariation) (error_message : String) : ProductVariation :=
  { v with crawl_error_count := v.crawl_error_count + 1,
           last_crawl_error := some (error_message.take 500) }

/-- `ProductVariationAdmin.reset_crawl_errors` (`admin.py` lines 181-184)
applied to one variation: error counter to 0, last error cleared. -/
def reset_crawl_errors (v : ProductVariation) : ProductVariation :=
  { v with crawl_error_count := 0, last_crawl_error := none }

/-- `ProductVariation.should_crawl` (`models.py` lines 834-843). -/
def should_crawl (v : ProductVariation) : Bool :=
  if !v.is_crawling_enabled || !strTruthy v.url then false
  else if 5 ≤ v.crawl_error_count then false
  else true

/-- Python's `min` over a nonempty list of rationals (`[]` unreachable at
the call site, mapped to `0`). -/
def pyMin : List ℚ → ℚ
  | [] => 0
  | a :: l => l.foldl min a

/-- Python's `max` over a nonempty list of rationals. -/
def pyMax : List ℚ → ℚ
  | [] => 0
  | a :: l => l.foldl max a

/-- One element of the `price_changes` list built by
`PriceAnalysisAPIView._analyze_price_changes` (`views.py` lines 490-501). -/
structure PriceChangeRow where
  sku : String
  product_name : String
  variation_name : String
  current_price : ℚ
  previous_price : ℚ
  change_amount : ℚ
  change_percent : ℚ
  change_type : String
  last_change_date : ℕ
  total_price_entries : ℕ
  deriving DecidableEq, Repr

/-- The in-window entries of a variation, newest first:
`variation.price_entries.filter(date_time__gte=cutoff_date).order_by('-date_time')`
(`views.py` lines 472-474). -/
def inWindowDesc (cutoff : ℕ) (v : ProductVariation) : List PriceEntry :=
  sortDescBy (fun e => e.date_time) (v.price_entries.filter (fun e => cutoff ≤ e.date_time))

/-- The body of the per-variation loop of `_analyze_price_changes`
(`views.py` lines 471-501): `none` when the variation contributes no row. -/
def priceChangeRow (cutoff : ℕ) (min_change_percent : ℚ) (analysis_type : String)
    (v : ProductVariation) : Option PriceChangeRow :=
  match inWindowDesc cutoff v with
  | e0 :: e1 :: _ =>
    let latest_price := e0.price
    let previous_price := e1.price
    if previous_price ≠ latest_price ∧ 0 < previous_price then
      let change_percent := (latest_price - previous_price) / previous_price * 100
      let change_type : String := if 0 < change_percent then "INCREASE" else "DECREASE"
      if min_change_percent ≤ |change_percent| then
        if analysis_type = "all_changes" ∨
            (analysis_type = "drops_only" ∧ change_type = "DECREASE") ∨
            (analysis_type = "increases_only" ∧ change_type = "INCREASE") then
          some { sku := v.sku
                 product_name := v.product_name
                 variation_name := v.name
                 current_price := latest_price
                 previous_price := previous_price
                 change_amount := latest_price - previous_price
                 change_percent := change_percent
                 change_type := change_type
                 last_change_date := e0.date_time
                 total_price_entries := v.price_entries.length }
        else none
      else none
    else none
  | _ => none

/-- `PriceAnalysisAPIView._analyze_price_changes` (`views.py` lines
467-504): collect the rows in iteration order, sort by descending
absolute percent change (Python `list.sort` is stable, `reverse=True`
keeps the original order among ties), truncate to `limit`. -/
def analyze_price_changes (vs : List ProductVariation) (cutoff : ℕ)
    (min_change_percent : ℚ) (limit : ℕ) (analysis_type : String) : List PriceChangeRow :=
  (sortDescBy (fun r => |r.change_percent|)
    (vs.filterMap (priceChangeRow cutoff min_change_percent analysis_type))).take limit

/-- One element of the `volatile_products` list built by
`PriceAnalysisAPIView._analyze_volatile_prices` (`views.py` lines 520-529). -/
structure VolatileRow where
  sku : String
  product_name : String
  variation_name : String
  current_price : ℚ
  min_price : ℚ
  max_price : ℚ
  volatility_percent : ℚ
  total_price_entries : ℕ
  deriving DecidableEq, Repr

/-- The body of the per-variation loop of `_analyze_volatile_prices`
(`views.py` lines 510-529).  The queryset filter `price_history_count__gte=3`
and the inner `len(prices) >= 3` check coincide; both are the single
length test here.  All entries (not only in-window ones) are read, in
`order_by('date_time')` order. -/
def volatileRow (v : ProductVariation) : Option VolatileRow :=
  if 3 ≤ v.price_entries.length then
    let prices := (sortAscBy (fun e => e.date_time) v.price_entries).map (fun e => e.price)
    let min_price := pyMin prices
    let max_price := pyMax prices
    let volatility_percent := if 0 < min_price then (max_price - min_price) / min_price * 100 else 0
    if 0 < volatility_percent then
      some { sku := v.sku
             product_name := v.product_name
             variation_name := v.name
             current_price := price v
             min_price := min_price
             max_price := max_price
             volatility_percent := volatility_percent
             total_price_entries := prices.length }
    else none
  else none

/-- `PriceAnalysisAPIView._analyze_volatile_prices` (`views.py` lines
506-532): collect, sort by descending volatility, truncate to `limit`. -/
def analyze_volatile_prices (vs : List ProductVariation) (limit : ℕ) : List VolatileRow :=
  (sortDescBy (fun r => r.volatility_percent) (vs.filterMap volatileRow)).take limit

/-- The three ways `update_price` (`views.py` lines 326-355) can answer a
well-formed JSON body. -/
inductive UpdatePriceResponse where
  | badRequest (error : String)
  | notFound (error : String)
  | ok (sku : String) (new_price : ℚ) (notes : String)
  deriving DecidableEq, Repr

/-- `ProductVariation.objects.get(sku=sku)` over a store of variations
(`sku` is a unique column, so at most one row matches). -/
def findVariation (store : List ProductVariation) (s : String) : Option ProductVariation :=
  store.find? (fun v => v.sku == s)

/-- `update_price` (`views.py` lines 326-355).  `sku` / `price` / `notes`
are the values of `data.get(...)` (`none` for an absent or null key);
missing or falsy `sku` and missing `price` give a 400; an unknown SKU a
404 with the store unchanged; otherwise `add_price` appends the supplied
price at the current time and the store is updated in place. -/
def update_price (store : List ProductVariation) (sku : Option String)
    (pr : Option ℚ) (notes : Option String) (now : ℕ) :
    UpdatePriceResponse × List ProductVariation :=
  match sku, pr with
  | some s, some p =>
    if s = "" then (.badRequest "sku and price are required", store)
    else
      match findVariation store s with
      | none => (.notFound "Product variation not found", store)
      | some _ =>
        (.ok s p (notes.getD ""),
         store.map (fun v => if v.sku = s then add_price v p now (some (notes.getD "")) else v))
  | _, _ => (.badRequest "sku and price are required", store)

/-- The oracle for one crawl attempt of `crawl_selected_prices`
(`admin.py` lines 127-163): the `try` body either raises somewhere
(crawler resolution, `session.get`, `raise_for_status`, extraction), or
completes with the crawler's name and the optional extracted price. -/
inductive AttemptEnv where
  | raised (msg : String)
  | extracted (crawlerName : String) (pr : Option ℚ)
  deriving DecidableEq, Repr

/-- How one iteration of the `crawl_selected_prices` loop ended. -/
inductive CrawlOutcome where
  | skipped
  | succeeded
  | failedNoPrice
  | failedRaise
  deriving DecidableEq, Repr

/-- One iteration of the loop of `crawl_selected_prices` (`admin.py`
lines 127-163).  `if price:` is Python truthiness: `None` and `0` are
falsy.  On success the price entry is appended with the
`Crawled from admin using <crawler>` note and then
`update_crawl_success` runs; on a missing price or a raise
`update_crawl_error` runs with the corresponding message. -/
def crawlOne (now : ℕ) (v : ProductVariation) (env : AttemptEnv) :
    ProductVariation × CrawlOutcome :=
  if !(should_crawl v) then (v, .skipped)
  else
    match env with
    | .raised msg => (update_crawl_error v ("Crawling failed: " ++ msg), .failedRaise)
    | .extracted crawlerName pr =>
      match pr with
      | some p =>
        if p = 0 then (update_crawl_error v "Could not extract price from URL", .failedNoPrice)
        else
          (update_crawl_success
            (add_price v p now (some ("Crawled from admin using " ++ crawlerName))) now p,
           .succeeded)
      | none => (update_crawl_error v "Could not extract price from URL", .failedNoPrice)

/-- `ProductVariationAdmin.crawl_selected_prices` (`admin.py` lines
117-169) over a queryset paired with each variation's attempt oracle:
the loop body runs per variation, sequentially and independently. -/
def crawl_selected_prices (now : ℕ) (inputs : List (ProductVariation × AttemptEnv)) :
    List (ProductVariation × CrawlOutcome) :=
  inputs.map (fun vi => crawlOne now vi.1 vi.2)

/-- The three counters of `crawl_selected_prices`:
`crawled_count` is incremented only when the `try` body completes (both
the success and the could-not-extract branches), not when it raises;
`success_count` on the success branch; `failed_count` on the
could-not-extract branch and in the `except` handler. -/
def crawlCounts (outs : List (ProductVariation × CrawlOutcome)) : ℕ × ℕ × ℕ :=
  (outs.countP (fun o => o.2 == .succeeded || o.2 == .failedNoPrice),
   outs.countP (fun o => o.2 == .succeeded),
   outs.countP (fun o => o.2 == .failedNoPrice || o.2 == .failedRaise))

/-- A concrete crawl-eligible variation used by the witnesses: crawling
enabled, non-empty URL, fresh error state, the given ledger. -/
def mkVariation (s : String) (entries : List PriceEntry) : ProductVariation :=
  { sku := s
    product_name := "Product"
    name := "Variation"
    url := some "http://example.com/p"
    is_crawling_enabled := true
    last_crawled_at := none
    crawl_error_count := 0
    last_crawl_error := none
    price_entries := entries }

/-- Ledger `[100 @ t1, 110 @ t2]` of the spec's INCREASE example. -/
def exIncrease : ProductVariation := mkVariation "SKU-INC" [⟨100, 1, none⟩, ⟨110, 2, none⟩]

/-- Ledger `[100 @ t1, 90 @ t2]` of the spec's DECREASE example. -/
def exDecrease : ProductVariation := mkVariation "SKU-DEC" [⟨100, 1, none⟩, ⟨90, 2, none⟩]

/-- Ledger `[80, 120, 100]` of the spec's volatility example. -/
def exVolatile : ProductVariation :=
  mkVariation "SKU-VOL" [⟨80, 1, none⟩, ⟨120, 2, none⟩, ⟨100, 3, none⟩]

/-- Two entries sharing timestamp 5: first appended has price 10, most
recently appended has price 20. -/
def exTie : ProductVariation := mkVariation "SKU-TIE" [⟨10, 5, none⟩, ⟨20, 5, none⟩]

/-- A variation whose ledger holds one entry dated at time 1. -/
def exRound : ProductVariation := mkVariation "SKU-RT" [⟨7, 1, none⟩]

/-- A batch of three crawl-eligible variations whose second attempt
raises a network error and whose first and third extract a price. -/
def exBatch : List (ProductVariation × AttemptEnv) :=
  [(mkVariation "SKU-1" [], .extracted "SiteCrawler" (some 10)),
   (mkVariation "SKU-2" [], .raised "network error"),
   (mkVariation "SKU-3" [], .extracted "SiteCrawler" (some 12))]

/-- A one-variation store holding SKU-1 with an empty ledger. -/
def exStore : List ProductVariation := [mkVariation "SKU-1" []]

/-- A crawl-eligible variation that has already hit the error threshold. -/
def exErrored : ProductVariation := { mkVariation "SKU-ERR" [] with crawl_error_count := 5 }

section SortLemmas

variable {α β : Type} [LinearOrder β]

lemma insertDescBy_perm (key : α → β) (a : α) (l : List α) :
    List.Perm (insertDescBy key a l) (a :: l) := by
  induction l with
  | nil => simp [insertDescBy]
  | cons x xs ih =>
    simp only [insertDescBy]
    split
    · exact (ih.cons x).trans (List.Perm.swap a x xs)
    · exact List.Perm.refl _

lemma sortDescBy_perm (key : α → β) (l : List α) : List.Perm (sortDescBy key l) l := by
  induction l with
  | nil => exact List.Perm.refl _
  | cons a l ih => exact (insertDescBy_perm key a _).trans (ih.cons a)

lemma mem_sortDescBy (key : α → β) (l : List α) (x : α) :
    x ∈ sortDescBy key l ↔ x ∈ l :=
  (sortDescBy_perm key l).mem_iff

lemma pairwise_insertDescBy (key : α → β) (a : α) (l : List α)
    (h : l.Pairwise (fun x y => key y ≤ key x)) :
    (insertDescBy key a l).Pairwise (fun x y => key y ≤ key x) := by
  induction l with
  | nil => simp [insertDescBy]
  | cons x xs ih =>
    rw [List.pairwise_cons] at h
    simp only [insertDescBy]
    split
    · rename_i hlt
      rw [List.pairwise_cons]
      refine ⟨?_, ih h.2⟩
      intro y hy
      have hy2 := (insertDescBy_perm key a xs).mem_iff.mp hy
      rcases List.mem_cons.mp hy2 with h1 | h2
      · subst h1; exact hlt.le
      · exact h.1 y h2
    · rename_i hge
      rw [List.pairwise_cons]
      constructor
      · intro y hy
        rcases List.mem_cons.mp hy with h1 | h2
        · subst h1; exact le_of_not_lt hge
        · exact (h.1 y h2).trans (le_of_not_lt hge)
      · exact List.pairwise_cons.mpr h

lemma pairwise_sortDescBy (key : α → β) (l : List α) :
    (sortDescBy key l).Pairwise (fun x y => key y ≤ key x) := by
  induction l with
  | nil => simp [sortDescBy]
  | cons a l ih => exact pairwise_insertDescBy key a _ ih

lemma filter_insertDescBy (key : α → β) (q : β) (a : α) (l : List α) :
    (insertDescBy key a l).filter (fun x => decide (key x = q)) =
      if key a = q then a :: l.filter (fun x => decide (key x = q))
      else l.filter (fun x => decide (key x = q)) := by
  induction l with
  | nil =>
    simp only [insertDescBy, List.filter]
    by_cases h : key a = q <;> simp [h]
  | cons x xs ih =>
    simp only [insertDescBy]
    split
    · rename_i hlt
      by_cases hx : key x = q
      · have ha : ¬ key a = q := by
          intro h; rw [h, ← hx] at hlt; exact lt_irrefl _ hlt
        simp [List.filter_cons, hx, ha, ih]
      · by_cases ha : key a = q <;> simp [List.filter_cons, hx, ha, ih]
    · by_cases ha : key a = q <;> simp [List.filter_cons, ha]

lemma filter_sortDescBy (key : α → β) (q : β) (l : List α) :
    (sortDescBy key l).filter (fun x => decide (key x = q)) =
      l.filter (fun x => decide (key x = q)) := by
  induction l with
  | nil => rfl
  | cons a l ih =>
    simp only [sortDescBy, filter_insertDescBy, ih, List.filter_cons]
    by_cases ha : key a = q <;> simp [ha]

lemma head_sortDescBy (key : α → β) (l : List α) (hl : l ≠ []) :
    ∃ a t pre post, sortDescBy key l = a :: t ∧ l = pre ++ a :: post ∧
      (∀ x ∈ l, key x ≤ key a) ∧ (∀ x ∈ pre, key x < key a) := by
  induction l with
  | nil => exact absurd rfl hl
  | cons e l ih =>
    cases l with
    | nil =>
      refine ⟨e, [], [], [], by simp [sortDescBy, insertDescBy], by simp, ?_, by simp⟩
      intro x hx
      rcases List.mem_cons.mp hx with h1 | h2
      · subst h1; exact le_rfl
      · cases h2
    | cons f l' =>
      obtain ⟨a, t, pre, post, hsort, hdecomp, hmax, hpre⟩ := ih (by simp)
      simp only [sortDescBy] at hsort ⊢
      rw [hsort]
      simp only [insertDescBy]
      by_cases hc : key e < key a
      · rw [if_pos hc]
        refine ⟨a, insertDescBy key e t, e :: pre, post, rfl, by rw [hdecomp]; rfl, ?_, ?_⟩
        · intro x hx
          rcases List.mem_cons.mp hx with h1 | h2
          · subst h1; exact hc.le
          · exact hmax x h2
        · intro x hx
          rcases List.mem_cons.mp hx with h1 | h2
          · subst h1; exact hc
          · exact hpre x h2
      · rw [if_neg hc]
        push_neg at hc
        refine ⟨e, a :: t, [], f :: l', rfl, rfl, ?_, by simp⟩
        intro x hx
        rcases List.mem_cons.mp hx with h1 | h2
        · subst h1; exact le_rfl
        · exact (hmax x h2).trans hc

lemma insertAscBy_perm (key : α → β) (a : α) (l : List α) :
    List.Perm (insertAscBy key a l) (a :: l) := by
  induction l with
  | nil => simp [insertAscBy]
  | cons x xs ih =>
    simp only [insertAscBy]
    split
    · exact (ih.cons x).trans (List.Perm.swap a x xs)
    · exact List.Perm.refl _

lemma sortAscBy_perm (key : α → β) (l : List α) : List.Perm (sortAscBy key l) l := by
  induction l with
  | nil => exact List.Perm.refl _
  | cons a l ih => exact (insertAscBy_perm key a _).trans (ih.cons a)

end SortLemmas

section MinMaxLemmas

lemma foldl_min_le (l : List ℚ) : ∀ a : ℚ, l.foldl min a ≤ a ∧ ∀ x ∈ l, l.foldl min a ≤ x := by
  induction l with
  | nil => intro a; exact ⟨le_rfl, by simp⟩
  | cons x xs ih =>
    intro a
    simp only [List.foldl_cons]
    obtain ⟨h1, h2⟩ := ih (min a x)
    refine ⟨h1.trans (min_le_left a x), ?_⟩
    intro y hy
    rcases List.mem_cons.mp hy with h3 | h4
    · subst h3; exact h1.trans (min_le_right a y)
    · exact h2 y h4

lemma foldl_min_mem (l : List ℚ) : ∀ a : ℚ, l.foldl min a = a ∨ l.foldl min a ∈ l := by
  induction l with
  | nil => intro a; exact Or.inl rfl
  | cons x xs ih =>
    intro a
    simp only [List.foldl_cons]
    rcases ih (min a x) with h | h
    · rcases min_choice a x with h1 | h1
      · exact Or.inl (by rw [h, h1])
      · exact Or.inr (by rw [h, h1]; exact List.mem_cons_self x xs)
    · exact Or.inr (List.mem_cons_of_mem x h)

lemma foldl_max_le (l : List ℚ) : ∀ a : ℚ, a ≤ l.foldl max a ∧ ∀ x ∈ l, x ≤ l.foldl max a := by
  induction l with
  | nil => intro a; exact ⟨le_rfl, by simp⟩
  | cons x xs ih =>
    intro a
    simp only [List.foldl_cons]
    obtain ⟨h1, h2⟩ := ih (max a x)
    refine ⟨(le_max_left a x).trans h1, ?_⟩
    intro y hy
    rcases List.mem_cons.mp hy with h3 | h4
    · subst h3; exact (le_max_right a y).trans h1
    · exact h2 y h4

lemma foldl_max_mem (l : List ℚ) : ∀ a : ℚ, l.foldl max a = a ∨ l.foldl max a ∈ l := by
  induction l with
  | nil => intro a; exact Or.inl rfl
  | cons x xs ih =>
    intro a
    simp only [List.foldl_cons]
    rcases ih (max a x) with h | h
    · rcases max_choice a x with h1 | h1
      · exact Or.inl (by rw [h, h1])
      · exact Or.inr (by rw [h, h1]; exact List.mem_cons_self x xs)
    · exact Or.inr (List.mem_cons_of_mem x h)

lemma pyMin_le (l : List ℚ) (x : ℚ) (hx : x ∈ l) : pyMin l ≤ x := by
  cases l with
  | nil => cases hx
  | cons a t =>
    rcases List.mem_cons.mp hx with h1 | h2
    · subst h1; exact (foldl_min_le t x).1
    · exact (foldl_min_le t a).2 x h2

lemma pyMin_mem (l : List ℚ) (hl : l ≠ []) : pyMin l ∈ l := by
  cases l with
  | nil => exact absurd rfl hl
  | cons a t =>
    simp only [pyMin]
    rcases foldl_min_mem t a with h | h
    · rw [h]; exact List.mem_cons_self a t
    · exact List.mem_cons_of_mem a h

lemma le_pyMax (l : List ℚ) (x : ℚ) (hx : x ∈ l) : x ≤ pyMax l := by
  cases l with
  | nil => cases hx
  | cons a t =>
    rcases List.mem_cons.mp hx with h1 | h2
    · subst h1; exact (foldl_max_le t x).1
    · exact (foldl_max_le t a).2 x h2

lemma pyMax_mem (l : List ℚ) (hl : l ≠ []) : pyMax l ∈ l := by
  cases l with
  | nil => exact absurd rfl hl
  | cons a t =>
    simp only [pyMax]
    rcases foldl_max_mem t a with h | h
    · rw [h]; exact List.mem_cons_self a t
    · exact List.mem_cons_of_mem a h

end MinMaxLemmas

lemma should_crawl_iff (v : ProductVariation) :
    should_crawl v = true ↔
      (v.is_crawling_enabled = true ∧ strTruthy v.url = true ∧ v.crawl_error_count < 5) := by
  by_cases h1 : v.is_crawling_enabled <;> by_cases h2 : strTruthy v.url <;>
    by_cases h3 : 5 ≤ v.crawl_error_count
  all_goals simp [should_crawl, h1, h2, h3]
  all_goals omega

lemma update_crawl_error_count (v : ProductVariation) (m : String) :
    (update_crawl_error v m).crawl_error_count = v.crawl_error_count + 1 := rfl

lemma iterate_error_count (m : String) (n : ℕ) (v : ProductVariation) :
    (((fun w => update_crawl_error w m))^[n] v).crawl_error_count =
      v.crawl_error_count + n := by
  induction n generalizing v with
  | zero => simp
  | succ n ih =>
    rw [Function.iterate_succ_apply, ih]
    simp [update_crawl_error]
    omega

lemma iterate_error_enabled (m : String) (n : ℕ) (v : ProductVariation) :
    (((fun w => update_crawl_error w m))^[n] v).is_crawling_enabled =
      v.is_crawling_enabled := by
  induction n generalizing v with
  | zero => simp
  | succ n ih => rw [Function.iterate_succ_apply, ih]; rfl

lemma iterate_error_url (m : String) (n : ℕ) (v : ProductVariation) :
    (((fun w => update_crawl_error w m))^[n] v).url = v.url := by
  induction n generalizing v with
  | zero => simp
  | succ n ih => rw [Function.iterate_succ_apply, ih]; rfl

lemma priceChangeRow_some (cutoff : ℕ) (thr : ℚ) (ty : String) (v : ProductVariation)
    (r : PriceChangeRow) (h : priceChangeRow cutoff thr ty v = some r) :
    ∃ e0 e1 rest, inWindowDesc cutoff v = e0 :: e1 :: rest ∧
      0 < e1.price ∧ e1.price ≠ e0.price ∧
      r.current_price = e0.price ∧ r.previous_price = e1.price ∧
      r.change_percent = (e0.price - e1.price) / e1.price * 100 ∧
      r.change_amount = e0.price - e1.price ∧
      r.change_type = (if 0 < r.change_percent then "INCREASE" else "DECREASE") ∧
      thr ≤ |r.change_percent| ∧
      r.last_change_date = e0.date_time ∧
      r.total_price_entries = v.price_entries.length ∧
      r.sku = v.sku := by
  unfold priceChangeRow at h
  cases hw : inWindowDesc cutoff v with
  | nil => rw [hw] at h; cases h
  | cons e0 tl =>
    cases tl with
    | nil => rw [hw] at h; cases h
    | cons e1 rest =>
      rw [hw] at h
      simp only at h
      split_ifs at h with h1 h2 h3 h4
      all_goals cases h
      all_goals refine ⟨e0, e1, rest, rfl, h1.2, h1.1, rfl, rfl, rfl, rfl, ?_, h2, rfl, rfl, rfl⟩
      · simp [h3]
      · simp [h3]

lemma priceChangeRow_none_of_prev_nonpos (cutoff : ℕ) (thr : ℚ) (ty : String)
    (v : ProductVariation) (e0 e1 : PriceEntry) (rest : List PriceEntry)
    (hw : inWindowDesc cutoff v = e0 :: e1 :: rest) (hp : e1.price ≤ 0) :
    priceChangeRow cutoff thr ty v = none := by
  unfold priceChangeRow
  rw [hw]
  simp only
  rw [if_neg]
  intro hc
  exact absurd hc.2 (not_lt.mpr hp)

lemma priceChangeRow_none_of_small (cutoff : ℕ) (thr : ℚ) (ty : String)
    (v : ProductVariation) (e0 e1 : PriceEntry) (rest : List PriceEntry)
    (hw : inWindowDesc cutoff v = e0 :: e1 :: rest)
    (hs : |(e0.price - e1.price) / e1.price * 100| < thr) :
    priceChangeRow cutoff thr ty v = none := by
  unfold priceChangeRow
  rw [hw]
  simp only
  split_ifs with h1 h2
  all_goals first
    | rfl
    | exact absurd h2 (not_le.mpr hs)

lemma priceChangeRow_some_of_large (cutoff : ℕ) (thr : ℚ) (v : ProductVariation)
    (e0 e1 : PriceEntry) (rest : List PriceEntry)
    (hw : inWindowDesc cutoff v = e0 :: e1 :: rest)
    (hthr : 0 < thr) (hpos : 0 < e1.price)
    (hbig : thr ≤ |(e0.price - e1.price) / e1.price * 100|) :
    ∃ r, priceChangeRow cutoff thr "all_changes" v = some r := by
  have hne : e1.price ≠ e0.price := by
    intro he
    rw [he] at hbig
    simp at hbig
    exact absurd (lt_of_lt_of_le hthr hbig) (lt_irrefl 0)
  unfold priceChangeRow
  rw [hw]
  simp only
  rw [if_pos ⟨hne, hpos⟩, if_pos hbig, if_pos (Or.inl trivial)]
  exact ⟨_, rfl⟩


lemma volatileRow_some (v : ProductVariation) (r : VolatileRow) (h : volatileRow v = some r) :
    3 ≤ v.price_entries.length ∧
      (∃ e ∈ v.price_entries, e.price = r.min_price) ∧
      (∃ e ∈ v.price_entries, e.price = r.max_price) ∧
      (∀ e ∈ v.price_entries, r.min_price ≤ e.price ∧ e.price ≤ r.max_price) ∧
      0 < r.min_price ∧
      r.volatility_percent = (r.max_price - r.min_price) / r.min_price * 100 ∧
      0 < r.volatility_percent ∧
      r.current_price = price v ∧
      r.total_price_entries = v.price_entries.length ∧
      r.sku = v.sku := by
  have hperm := sortAscBy_perm (fun e => e.date_time) v.price_entries
  unfold volatileRow at h
  dsimp only at h
  split_ifs at h with h1 h2 h3 h4
  all_goals cases h
  all_goals try (exfalso; linarith)
  have hlen : (List.map (fun e => e.price) (sortAscBy (fun e => e.date_time) v.price_entries)).length
      = v.price_entries.length := by
    rw [List.length_map]
    exact hperm.length_eq
  have hne : List.map (fun e => e.price) (sortAscBy (fun e => e.date_time) v.price_entries) ≠ [] := by
    intro hnil
    rw [hnil] at hlen
    simp at hlen
    omega
  have hminmem := pyMin_mem _ hne
  have hmaxmem := pyMax_mem _ hne
  rcases List.mem_map.mp hminmem with ⟨emin, hemin, hemin2⟩
  rcases List.mem_map.mp hmaxmem with ⟨emax, hemax, hemax2⟩
  refine ⟨h1, ⟨emin, hperm.mem_iff.mp hemin, hemin2⟩, ⟨emax, hperm.mem_iff.mp hemax, hemax2⟩,
    ?_, h2, rfl, h3, rfl, hlen, rfl⟩
  intro e he
  have he2 : e ∈ sortAscBy (fun x => x.date_time) v.price_entries := hperm.mem_iff.mpr he
  have he3 : e.price ∈ List.map (fun x => x.price) (sortAscBy (fun x => x.date_time) v.price_entries) :=
    List.mem_map_of_mem _ he2
  exact ⟨pyMin_le _ _ he3, le_pyMax _ _ he3⟩

lemma volatileRow_none_of_nonpos (v : ProductVariation) (e : PriceEntry)
    (he : e ∈ v.price_entries) (hp : e.price ≤ 0) : volatileRow v = none := by
  have hperm := sortAscBy_perm (fun x => x.date_time) v.price_entries
  have he3 : e.price ∈ List.map (fun x => x.price) (sortAscBy (fun x => x.date_time) v.price_entries) :=
    List.mem_map_of_mem _ (hperm.mem_iff.mpr he)
  have hminle := pyMin_le _ _ he3
  unfold volatileRow
  dsimp only
  split_ifs with h1 h2 h3
  all_goals try rfl
  all_goals exfalso; linarith

lemma volatileRow_none_of_const (v : ProductVariation)
    (hc : ∀ e ∈ v.price_entries, ∀ e2 ∈ v.price_entries, e.price = e2.price) :
    volatileRow v = none := by
  have hperm := sortAscBy_perm (fun x => x.date_time) v.price_entries
  unfold volatileRow
  dsimp only
  split_ifs with h1 h2 h3
  all_goals try rfl
  all_goals exfalso
  all_goals try linarith
  have hlen : (List.map (fun x => x.price) (sortAscBy (fun x => x.date_time) v.price_entries)).length
      = v.price_entries.length := by
    rw [List.length_map]; exact hperm.length_eq
  have hne : List.map (fun x => x.price) (sortAscBy (fun x => x.date_time) v.price_entries) ≠ [] := by
    intro hnil; rw [hnil] at hlen; simp at hlen; omega
  rcases List.mem_map.mp (pyMin_mem _ hne) with ⟨emin, hemin, hemin2⟩
  rcases List.mem_map.mp (pyMax_mem _ hne) with ⟨emax, hemax, hemax2⟩
  have heq : pyMin (List.map (fun x => x.price) (sortAscBy (fun x => x.date_time) v.price_entries))
      = pyMax (List.map (fun x => x.price) (sortAscBy (fun x => x.date_time) v.price_entries)) := by
    rw [← hemin2, ← hemax2]
    exact hc emin (hperm.mem_iff.mp hemin) emax (hperm.mem_iff.mp hemax)
  rw [← heq] at h3
  simp at h3

lemma volatileRow_eq_of (v : ProductVariation)
    (h1 : 3 ≤ v.price_entries.length)
    (hmin : 0 < pyMin (List.map (fun x => x.price) (sortAscBy (fun x => x.date_time) v.price_entries)))
    (hlt : pyMin (List.map (fun x => x.price) (sortAscBy (fun x => x.date_time) v.price_entries))
      < pyMax (List.map (fun x => x.price) (sortAscBy (fun x => x.date_time) v.price_entries))) :
    volatileRow v = some
      { sku := v.sku
        product_name := v.product_name
        variation_name := v.name
        current_price := price v
        min_price := pyMin (List.map (fun x => x.price) (sortAscBy (fun x => x.date_time) v.price_entries))
        max_price := pyMax (List.map (fun x => x.price) (sortAscBy (fun x => x.date_time) v.price_entries))
        volatility_percent :=
          (pyMax (List.map (fun x => x.price) (sortAscBy (fun x => x.date_time) v.price_entries)) -
            pyMin (List.map (fun x => x.price) (sortAscBy (fun x => x.date_time) v.price_entries))) /
            pyMin (List.map (fun x => x.price) (sortAscBy (fun x => x.date_time) v.price_entries)) * 100
        total_price_entries :=
          (List.map (fun x => x.price) (sortAscBy (fun x => x.date_time) v.price_entries)).length } := by
  have hv : 0 < (pyMax (List.map (fun x => x.price) (sortAscBy (fun x => x.date_time) v.price_entries)) -
      pyMin (List.map (fun x => x.price) (sortAscBy (fun x => x.date_time) v.price_entries))) /
      pyMin (List.map (fun x => x.price) (sortAscBy (fun x => x.date_time) v.price_entries)) * 100 :=
    mul_pos (div_pos (sub_pos.mpr hlt) hmin) (by norm_num)
  unfold volatileRow
  dsimp only
  rw [if_pos h1, if_pos hmin, if_pos hv]

lemma price_first_max (v : ProductVariation) (hne : v.price_entries ≠ []) :
    ∃ e pre post, v.price_entries = pre ++ e :: post ∧ price v = e.price ∧
      (∀ x ∈ v.price_entries, x.date_time ≤ e.date_time) ∧
      (∀ x ∈ pre, x.date_time < e.date_time) := by
  obtain ⟨a, t, pre, post, hsort, hdecomp, hmax, hpre⟩ :=
    head_sortDescBy (fun e => e.date_time) v.price_entries hne
  refine ⟨a, pre, post, hdecomp, ?_, hmax, hpre⟩
  unfold price
  rw [hsort]


/-- Claim C1: for every variation, should_crawl is true iff crawling is
enabled AND the URL is non-empty AND crawl_error_count < 5; it is false
whenever the count is at least 5; recording a further error keeps the
count at least 5 (the counter only grows on errors), so only an explicit
reset of the counter to 0 re-enables crawling (given enabled and URL). -/
theorem should_crawl_spec (v : ProductVariation) (m : String) :
    (should_crawl v = true ↔
      (v.is_crawling_enabled = true ∧ strTruthy v.url = true ∧ v.crawl_error_count < 5)) ∧
    (5 ≤ v.crawl_error_count → should_crawl v = false) ∧
    ((update_crawl_error v m).crawl_error_count = v.crawl_error_count + 1) ∧
    (5 ≤ v.crawl_error_count → should_crawl (update_crawl_error v m) = false) ∧
    (should_crawl (reset_crawl_errors v) = (v.is_crawling_enabled && strTruthy v.url)) := by
  refine ⟨should_crawl_iff v, ?_, rfl, ?_, ?_⟩
  · intro h5
    cases hsc : should_crawl v
    · rfl
    · exact absurd ((should_crawl_iff v).mp hsc).2.2 (not_lt.mpr h5)
  · intro h5
    cases hsc : should_crawl (update_crawl_error v m)
    · rfl
    · have h6 := ((should_crawl_iff _).mp hsc).2.2
      rw [update_crawl_error_count] at h6
      omega
  · by_cases h1 : v.is_crawling_enabled <;> by_cases h2 : strTruthy v.url
    all_goals simp [should_crawl, reset_crawl_errors, h1, h2]

/-- Witness for C1 at a variation with 5 accumulated errors. -/
theorem should_crawl_spec_witness :
    should_crawl exErrored = false ∧
    should_crawl (update_crawl_error exErrored "boom") = false ∧
    should_crawl (reset_crawl_errors exErrored) = true :=
  ⟨(should_crawl_spec exErrored "boom").2.1 (by decide),
   (should_crawl_spec exErrored "boom").2.2.2.1 (by decide),
   by rw [(should_crawl_spec exErrored "boom").2.2.2.2]; decide⟩

/-- Claim C2: a crawl success zeroes the error counter, clears the last
error and stamps last_crawled_at with the given clock value; a crawl
failure increments the counter by exactly one and stores the message
truncated to 500 characters (and, being a total function, never throws);
on a fresh enabled variation with a URL the fifth consecutive failure
flips should_crawl from true to false, and a subsequent success makes it
true again. -/
theorem crawl_health_transitions (v : ProductVariation) (now : ℕ) (p : ℚ) (m : String) :
    ((update_crawl_success v now p).crawl_error_count = 0 ∧
     (update_crawl_success v now p).last_crawl_error = none ∧
     (update_crawl_success v now p).last_crawled_at = some now) ∧
    ((update_crawl_error v m).crawl_error_count = v.crawl_error_count + 1 ∧
     (update_crawl_error v m).last_crawl_error = some (m.take 500)) ∧
    (v.crawl_error_count = 0 → v.is_crawling_enabled = true → strTruthy v.url = true →
      should_crawl ((fun w => update_crawl_error w m)^[4] v) = true ∧
      should_crawl ((fun w => update_crawl_error w m)^[5] v) = false ∧
      should_crawl (update_crawl_success ((fun w => update_crawl_error w m)^[5] v) now p)
        = true) := by
  refine ⟨⟨rfl, rfl, rfl⟩, ⟨rfl, rfl⟩, ?_⟩
  intro h0 hen hurl
  refine ⟨?_, ?_, ?_⟩
  · rw [should_crawl_iff]
    refine ⟨?_, ?_, ?_⟩
    · rw [iterate_error_enabled]; exact hen
    · rw [iterate_error_url]; exact hurl
    · rw [iterate_error_count, h0]; omega
  · cases hsc : should_crawl ((fun w => update_crawl_error w m)^[5] v)
    · rfl
    · have h6 := ((should_crawl_iff _).mp hsc).2.2
      rw [iterate_error_count, h0] at h6
      omega
  · rw [should_crawl_iff]
    refine ⟨?_, ?_, ?_⟩
    · show (((fun w => update_crawl_error w m)^[5] v)).is_crawling_enabled = true
      rw [iterate_error_enabled]; exact hen
    · show strTruthy ((((fun w => update_crawl_error w m)^[5] v)).url) = true
      rw [iterate_error_url]; exact hurl
    · show (0 : ℕ) < 5
      omega

/-- Witness for C2 on a fresh crawl-eligible variation. -/
theorem crawl_health_transitions_witness :
    should_crawl ((fun w => update_crawl_error w "boom")^[4] (mkVariation "SKU-W" [])) = true ∧
    should_crawl ((fun w => update_crawl_error w "boom")^[5] (mkVariation "SKU-W" [])) = false ∧
    should_crawl (update_crawl_success
      ((fun w => update_crawl_error w "boom")^[5] (mkVariation "SKU-W" [])) 9 10) = true :=
  (crawl_health_transitions (mkVariation "SKU-W" []) 9 10 "boom").2.2 (by decide) (by decide)
    (by decide)

/-- Claim C3 (amended): each variation of a batch is processed
independently, so an exception raised while crawling one variation never
prevents processing of the later ones; in the 3-eligible-variation batch
whose second attempt raises a network error, the second variation counts
toward the failed total with its error counter incremented by exactly
one, and the third is still processed successfully — but the reported
crawled total is 2, not 3, because a raising attempt is not counted by
the crawled counter (only by the failed counter). -/
theorem batch_crawl_resilience (now : ℕ) (xs ys : List (ProductVariation × AttemptEnv))
    (v : ProductVariation) (msg : String) (hv : should_crawl v = true) :
    crawl_selected_prices now (xs ++ (v, .raised msg) :: ys) =
      crawl_selected_prices now xs ++
        (update_crawl_error v ("Crawling failed: " ++ msg), .failedRaise) ::
          crawl_selected_prices now ys ∧
    (update_crawl_error v ("Crawling failed: " ++ msg)).crawl_error_count
      = v.crawl_error_count + 1 ∧
    crawlCounts (crawl_selected_prices 100 exBatch) = (2, 2, 1) ∧
    ((crawl_selected_prices 100 exBatch).get? 1).map (fun o => (o.1.crawl_error_count, o.2))
      = some (1, .failedRaise) ∧
    ((crawl_selected_prices 100 exBatch).get? 2).map (fun o => o.2) = some .succeeded := by
  refine ⟨?_, rfl, by decide, by decide, by decide⟩
  simp [crawl_selected_prices, crawlOne, hv]

/-- Counterexample for C3 as stated: in the 3-eligible-variation batch
with the second attempt raising, the crawled/attempted counter the admin
action reports is 2, not the 3 the claim asserts. -/
theorem batch_crawl_attempted_cex :
    (crawlCounts (crawl_selected_prices 100 exBatch)).1 = 2 ∧ (2 : ℕ) ≠ 3 :=
  ⟨by decide, by decide⟩

/-- Witness for C3 (amended) on a concrete eligible variation. -/
theorem batch_crawl_resilience_witness :
    should_crawl (mkVariation "SKU-W2" []) = true ∧
    crawlCounts (crawl_selected_prices 100 exBatch) = (2, 2, 1) :=
  ⟨by decide, (batch_crawl_resilience 7 [] [] (mkVariation "SKU-W2" []) "net" (by decide)).2.2.1⟩

/-- Claim C4 (amended): for every variation with at least one entry the
current price is the price of an entry carrying the maximal timestamp,
and among entries sharing that maximal timestamp the EARLIEST appended
one wins: the ledger is ordered by the single key date_time, so a stable
descending sort leaves equal-timestamp entries in insertion order and
the first of them is read; nothing in the code makes the last write win. -/
theorem current_price_max_timestamp (v : ProductVariation) (hne : v.price_entries ≠ []) :
    ∃ e pre post, v.price_entries = pre ++ e :: post ∧ price v = e.price ∧
      (∀ x ∈ v.price_entries, x.date_time ≤ e.date_time) ∧
      (∀ x ∈ pre, x.date_time < e.date_time) :=
  price_first_max v hne

/-- Counterexample for C4 as stated: two entries share timestamp 5; the
most recently appended has price 20, yet the current price reads 10. -/
theorem current_price_tie_cex :
    exTie.price_entries = [⟨10, 5, none⟩, ⟨20, 5, none⟩] ∧
    price exTie = 10 ∧ price exTie ≠ 20 :=
  ⟨by decide, by decide, by decide⟩

/-- Witness for C4 (amended) on the tied two-entry ledger. -/
theorem current_price_max_timestamp_witness :
    exTie.price_entries ≠ [] ∧
    (∃ e pre post, exTie.price_entries = pre ++ e :: post ∧ price exTie = e.price ∧
      (∀ x ∈ exTie.price_entries, x.date_time ≤ e.date_time) ∧
      (∀ x ∈ pre, x.date_time < e.date_time)) :=
  ⟨by decide, current_price_max_timestamp exTie (by decide)⟩

/-- Claim C5: every reported price change comes from a variation with at
least two in-window entries, compares the two most recent of them, has
percent change = (latest - previous) / previous * 100 and is classified
INCREASE when positive and DECREASE otherwise; variations whose previous
price is nonpositive are skipped; rows with absolute percent change
below the caller threshold are excluded and rows at or above it (with a
positive previous price) are included; the output is sorted by
descending absolute percent change with the stable tie-break of the
original iteration order and truncated to the caller limit; the ledger
[100 @ t1, 110 @ t2] yields percent change 10 classified INCREASE and
[100 @ t1, 90 @ t2] yields -10 classified DECREASE.  The threshold
hypothesis is the serializer bound min_change_percent >= 0.1. -/
theorem price_change_analysis_spec (vs : List ProductVariation) (cutoff : ℕ) (thr : ℚ)
    (limit : ℕ) (hthr : 1/10 ≤ thr) :
    (∀ r ∈ analyze_price_changes vs cutoff thr limit "all_changes",
      ∃ v ∈ vs, priceChangeRow cutoff thr "all_changes" v = some r) ∧
    (∀ v r, priceChangeRow cutoff thr "all_changes" v = some r →
      ∃ e0 e1 rest, inWindowDesc cutoff v = e0 :: e1 :: rest ∧
        0 < e1.price ∧
        r.current_price = e0.price ∧ r.previous_price = e1.price ∧
        r.change_percent = (e0.price - e1.price) / e1.price * 100 ∧
        r.change_type = (if 0 < r.change_percent then "INCREASE" else "DECREASE") ∧
        thr ≤ |r.change_percent|) ∧
    (∀ v e0 e1 rest, inWindowDesc cutoff v = e0 :: e1 :: rest → e1.price ≤ 0 →
      priceChangeRow cutoff thr "all_changes" v = none) ∧
    (∀ v e0 e1 rest, inWindowDesc cutoff v = e0 :: e1 :: rest →
      |(e0.price - e1.price) / e1.price * 100| < thr →
      priceChangeRow cutoff thr "all_changes" v = none) ∧
    (∀ v e0 e1 rest, inWindowDesc cutoff v = e0 :: e1 :: rest → 0 < e1.price →
      thr ≤ |(e0.price - e1.price) / e1.price * 100| →
      ∃ r, priceChangeRow cutoff thr "all_changes" v = some r) ∧
    (analyze_price_changes vs cutoff thr limit "all_changes").Pairwise
      (fun r s => |s.change_percent| ≤ |r.change_percent|) ∧
    (∀ q : ℚ,
      (sortDescBy (fun r => |r.change_percent|)
        (vs.filterMap (priceChangeRow cutoff thr "all_changes"))).filter
          (fun r => decide (|r.change_percent| = q)) =
        (vs.filterMap (priceChangeRow cutoff thr "all_changes")).filter
          (fun r => decide (|r.change_percent| = q))) ∧
    (analyze_price_changes vs cutoff thr limit "all_changes").length ≤ limit ∧
    priceChangeRow 0 1 "all_changes" exIncrease =
      some { sku := "SKU-INC", product_name := "Product", variation_name := "Variation",
             current_price := 110, previous_price := 100, change_amount := 10,
             change_percent := 10, change_type := "INCREASE",
             last_change_date := 2, total_price_entries := 2 } ∧
    priceChangeRow 0 1 "all_changes" exDecrease =
      some { sku := "SKU-DEC", product_name := "Product", variation_name := "Variation",
             current_price := 90, previous_price := 100, change_amount := -10,
             change_percent := -10, change_type := "DECREASE",
             last_change_date := 2, total_price_entries := 2 } := by
  refine ⟨?_, ?_, ?_, ?_, ?_, ?_, ?_, ?_, ?_, ?_⟩
  · intro r hr
    have h1 : r ∈ sortDescBy (fun r => |r.change_percent|)
        (vs.filterMap (priceChangeRow cutoff thr "all_changes")) :=
      (List.take_sublist _ _).subset hr
    exact List.mem_filterMap.mp ((sortDescBy_perm _ _).mem_iff.mp h1)
  · intro v r h
    obtain ⟨e0, e1, rest, hw, hpos, hne2, hcur, hprev, hpc, ham, hct, hth, hld, htot, hsku⟩ :=
      priceChangeRow_some cutoff thr _ v r h
    exact ⟨e0, e1, rest, hw, hpos, hcur, hprev, hpc, hct, hth⟩
  · intro v e0 e1 rest hw hp
    exact priceChangeRow_none_of_prev_nonpos cutoff thr _ v e0 e1 rest hw hp
  · intro v e0 e1 rest hw hsmall
    exact priceChangeRow_none_of_small cutoff thr _ v e0 e1 rest hw hsmall
  · intro v e0 e1 rest hw hpos hbig
    exact priceChangeRow_some_of_large cutoff thr v e0 e1 rest hw
      (lt_of_lt_of_le (by norm_num) hthr) hpos hbig
  · exact List.Pairwise.sublist (List.take_sublist _ _) (pairwise_sortDescBy _ _)
  · intro q
    exact filter_sortDescBy _ q _
  · unfold analyze_price_changes
    rw [List.length_take]
    exact min_le_left _ _
  · simp only [priceChangeRow, inWindowDesc, sortDescBy, insertDescBy, exIncrease, mkVariation]
    norm_num
  · simp only [priceChangeRow, inWindowDesc, sortDescBy, insertDescBy, exDecrease, mkVariation]
    norm_num

/-- Witness for C5 at threshold 1 on the two example ledgers. -/
theorem price_change_analysis_witness :
    (1 : ℚ)/10 ≤ 1 ∧
    priceChangeRow 0 1 "all_changes" exIncrease =
      some { sku := "SKU-INC", product_name := "Product", variation_name := "Variation",
             current_price := 110, previous_price := 100, change_amount := 10,
             change_percent := 10, change_type := "INCREASE",
             last_change_date := 2, total_price_entries := 2 } ∧
    priceChangeRow 0 1 "all_changes" exDecrease =
      some { sku := "SKU-DEC", product_name := "Product", variation_name := "Variation",
             current_price := 90, previous_price := 100, change_amount := -10,
             change_percent := -10, change_type := "DECREASE",
             last_change_date := 2, total_price_entries := 2 } :=
  ⟨by norm_num,
   (price_change_analysis_spec [exIncrease] 0 1 50 (by norm_num)).2.2.2.2.2.2.2.2.1,
   (price_change_analysis_spec [exIncrease] 0 1 50 (by norm_num)).2.2.2.2.2.2.2.2.2⟩

/-- Claim C6: every volatility row comes from a variation with at least
three total entries; its min and max prices are attained by entries and
bound every entry of the WHOLE ledger (not only the window); the
volatility percent is (max - min) / min * 100; variations with a
nonpositive minimum or an all-equal ledger (volatility 0) are skipped
and nondegenerate ones are kept; the output is sorted by descending
volatility and truncated to the limit; the ledger [80, 120, 100] yields
min 80, max 120, volatility 50. -/
theorem volatility_analysis_spec (vs : List ProductVariation) (limit : ℕ) :
    (∀ r ∈ analyze_volatile_prices vs limit, ∃ v ∈ vs, volatileRow v = some r) ∧
    (∀ v r, volatileRow v = some r →
      3 ≤ v.price_entries.length ∧
      (∃ e ∈ v.price_entries, e.price = r.min_price) ∧
      (∃ e ∈ v.price_entries, e.price = r.max_price) ∧
      (∀ e ∈ v.price_entries, r.min_price ≤ e.price ∧ e.price ≤ r.max_price) ∧
      0 < r.min_price ∧
      r.volatility_percent = (r.max_price - r.min_price) / r.min_price * 100 ∧
      0 < r.volatility_percent) ∧
    (∀ v e, e ∈ v.price_entries → e.price ≤ 0 → volatileRow v = none) ∧
    (∀ v, (∀ e ∈ v.price_entries, ∀ e2 ∈ v.price_entries, e.price = e2.price) →
      volatileRow v = none) ∧
    (∀ v, 3 ≤ v.price_entries.length →
      0 < pyMin (List.map (fun x => x.price) (sortAscBy (fun x => x.date_time) v.price_entries)) →
      pyMin (List.map (fun x => x.price) (sortAscBy (fun x => x.date_time) v.price_entries)) <
        pyMax (List.map (fun x => x.price) (sortAscBy (fun x => x.date_time) v.price_entries)) →
      ∃ r, volatileRow v = some r) ∧
    (analyze_volatile_prices vs limit).Pairwise
      (fun r s => s.volatility_percent ≤ r.volatility_percent) ∧
    (analyze_volatile_prices vs limit).length ≤ limit ∧
    volatileRow exVolatile =
      some { sku := "SKU-VOL", product_name := "Product", variation_name := "Variation",
             current_price := 100, min_price := 80, max_price := 120,
             volatility_percent := 50, total_price_entries := 3 } := by
  refine ⟨?_, ?_, ?_, ?_, ?_, ?_, ?_, ?_⟩
  · intro r hr
    have h1 : r ∈ sortDescBy (fun r => r.volatility_percent) (vs.filterMap volatileRow) :=
      (List.take_sublist _ _).subset hr
    exact List.mem_filterMap.mp ((sortDescBy_perm _ _).mem_iff.mp h1)
  · intro v r h
    obtain ⟨h1, h2, h3, h4, h5, h6, h7, _, _, _⟩ := volatileRow_some v r h
    exact ⟨h1, h2, h3, h4, h5, h6, h7⟩
  · intro v e he hp
    exact volatileRow_none_of_nonpos v e he hp
  · intro v hc
    exact volatileRow_none_of_const v hc
  · intro v h1 h2 h3
    exact ⟨_, volatileRow_eq_of v h1 h2 h3⟩
  · exact List.Pairwise.sublist (List.take_sublist _ _) (pairwise_sortDescBy _ _)
  · unfold analyze_volatile_prices
    rw [List.length_take]
    exact min_le_left _ _
  · simp only [volatileRow, sortAscBy, insertAscBy, pyMin, pyMax, price, sortDescBy,
      insertDescBy, exVolatile, mkVariation]
    norm_num

/-- Witness for C6 on the example ledger [80, 120, 100]. -/
theorem volatility_analysis_witness :
    volatileRow exVolatile =
      some { sku := "SKU-VOL", product_name := "Product", variation_name := "Variation",
             current_price := 100, min_price := 80, max_price := 120,
             volatility_percent := 50, total_price_entries := 3 } :=
  (volatility_analysis_spec [exVolatile] 50).2.2.2.2.2.2.2

/-- Claim C7: appending a price entry and then immediately reading the
current price returns the just-appended value; the hypothesis says every
existing entry is dated strictly before the appended entry, which is
what appending at the current time means when all earlier entries were
also stamped at their own (earlier) current times. -/
theorem add_price_roundtrip (v : ProductVariation) (p : ℚ) (t : ℕ) (n : Option String)
    (h : ∀ e ∈ v.price_entries, e.date_time < t) :
    price (add_price v p t n) = p := by
  have hne : (add_price v p t n).price_entries ≠ [] := by simp [add_price]
  obtain ⟨e, pre, post, hdecomp, hprice, hmax, hpre⟩ := price_first_max _ hne
  have hemem : e ∈ (add_price v p t n).price_entries := by
    rw [hdecomp]
    exact List.mem_append.mpr (Or.inr (List.mem_cons_self _ _))
  have hnew : (⟨p, t, n⟩ : PriceEntry) ∈ (add_price v p t n).price_entries := by
    simp [add_price]
  have ht : t ≤ e.date_time := hmax _ hnew
  have hsplit : e ∈ v.price_entries ∨ e ∈ [(⟨p, t, n⟩ : PriceEntry)] :=
    List.mem_append.mp (by simpa [add_price] using hemem)
  rcases hsplit with hold | hnew2
  · exact absurd ht (not_le.mpr (h e hold))
  · rw [hprice, List.mem_singleton.mp hnew2]

/-- Witness for C7: appending 19 at time 2 over an entry dated 1. -/
theorem add_price_roundtrip_witness :
    (∀ e ∈ exRound.price_entries, e.date_time < 2) ∧
    price (add_price exRound 19 2 none) = 19 :=
  ⟨by decide, add_price_roundtrip exRound 19 2 none (by decide)⟩

/-- Claim C8: update_price called with a (nonempty) SKU no variation
carries answers 404 with the descriptive message and returns the store
unchanged — no price entry is appended anywhere. -/
theorem update_price_unknown_sku (store : List ProductVariation) (s : String) (p : ℚ)
    (notes : Option String) (now : ℕ) (hs : s ≠ "") (h : ∀ v ∈ store, v.sku ≠ s) :
    update_price store (some s) (some p) notes now =
      (.notFound "Product variation not found", store) := by
  have hf : findVariation store s = none := by
    unfold findVariation
    rw [List.find?_eq_none]
    intro v hv
    simp only [beq_iff_eq]
    exact h v hv
  unfold update_price
  dsimp only
  rw [if_neg hs, hf]

/-- Witness for C8: updating SKU-9 against a store holding only SKU-1. -/
theorem update_price_unknown_sku_witness :
    ("SKU-9" : String) ≠ "" ∧ (∀ v ∈ exStore, v.sku ≠ "SKU-9") ∧
    update_price exStore (some "SKU-9") (some 19.99) none 7 =
      (.notFound "Product variation not found", exStore) :=
  ⟨by decide, by decide,
   update_price_unknown_sku exStore "SKU-9" 19.99 none 7 (by decide) (by decide)⟩

/-- Claim C9 (amended): add_price and update_price record exactly the
supplied price and perform no validation, so every entry of the ledger
is non-negative only provided every supplied price is non-negative (and
the prior ledger already was). -/
theorem price_entry_nonneg_preserved (v : ProductVariation) (p : ℚ) (t : ℕ) (n : Option String)
    (store : List ProductVariation) (s : String) (notes : Option String) (now : ℕ) :
    (add_price v p t n).price_entries = v.price_entries ++ [⟨p, t, n⟩] ∧
    (0 ≤ p → (∀ e ∈ v.price_entries, 0 ≤ e.price) →
      ∀ e ∈ (add_price v p t n).price_entries, 0 ≤ e.price) ∧
    ((∀ w ∈ store, ∀ e ∈ w.price_entries, 0 ≤ e.price) → 0 ≤ p →
      ∀ w ∈ (update_price store (some s) (some p) notes now).2, ∀ e ∈ w.price_entries,
        0 ≤ e.price) := by
  refine ⟨rfl, ?_, ?_⟩
  · intro hp hall e he
    rcases List.mem_append.mp he with h1 | h2
    · exact hall e h1
    · rw [List.mem_singleton.mp h2]; exact hp
  · intro hstore hp w hw e he
    unfold update_price at hw
    dsimp only at hw
    by_cases h1 : s = ""
    · rw [if_pos h1] at hw
      exact hstore w hw e he
    · rw [if_neg h1] at hw
      cases hfind : findVariation store s with
      | none =>
        rw [hfind] at hw
        exact hstore w hw e he
      | some v0 =>
        rw [hfind] at hw
        dsimp only at hw
        rcases List.mem_map.mp hw with ⟨w0, hw0, hweq⟩
        by_cases h2 : w0.sku = s
        · rw [if_pos h2] at hweq
          rw [← hweq] at he
          rcases List.mem_append.mp he with h3 | h4
          · exact hstore w0 hw0 e h3
          · rw [List.mem_singleton.mp h4]; exact hp
        · rw [if_neg h2] at hweq
          rw [← hweq] at he
          exact hstore w0 hw0 e he

/-- Counterexample for C9 as stated: update_price accepts price -5 for
an existing SKU and appends an entry whose price is negative. -/
theorem price_entry_nonneg_cex :
    (update_price exStore (some "SKU-1") (some (-5)) none 7).1 =
      .ok "SKU-1" (-5) "" ∧
    ((update_price exStore (some "SKU-1") (some (-5)) none 7).2.map
      (fun v => v.price_entries.map (fun e => e.price))) = [[-5]] ∧
    ¬ (0 ≤ (-5 : ℚ)) :=
  ⟨by decide, by decide, by decide⟩

/-- Witness for C9 (amended): a non-negative append keeps the ledger
non-negative. -/
theorem price_entry_nonneg_witness :
    (0 : ℚ) ≤ 3 ∧
    ∀ e ∈ (add_price (mkVariation "SKU-N" []) 3 1 none).price_entries, 0 ≤ e.price :=
  ⟨by norm_num,
   (price_entry_nonneg_preserved (mkVariation "SKU-N" []) 3 1 none [] "x" none 0).2.1
     (by norm_num) (by decide)⟩

/-- Claim C10: reading the current price of a variation whose ledger is
empty returns 0 rather than failing or returning an absent value. -/
theorem price_empty_ledger (v : ProductVariation) (h : v.price_entries = []) : price v = 0 := by
  unfold price
  rw [h]
  rfl

/-- Witness for C10 on an empty ledger. -/
theorem price_empty_ledger_witness :
    (mkVariation "SKU-E" []).price_entries = [] ∧ price (mkVariation "SKU-E" []) = 0 :=
  ⟨rfl, price_empty_ledger (mkVariation "SKU-E" []) rfl⟩


end Blueprint
